import Mathlib

/-!
Verification of the RevoDraw geometry core: the drawable-area model
(`detect_drawing_area.py`), the one-shot path fit (`image_draw.py`,
`scale_paths_to_area`), the interactive per-layer transform and erase/undo
editing state (`revodraw.py`), and the line clustering / slot assignment of
the boundary detector.  Python ints are modelled as `ℤ`, Python floats as
`ℚ` (exact rational arithmetic; `math.cos`/`math.sin` values are passed in
as rational parameters), Python `int(...)` truncation as `pyTrunc`, and
Python exceptions as `Option`.
-/

/-- Python `int(x)` applied to a float: truncation toward zero. -/
def pyTrunc (q : ℚ) : ℤ := if 0 ≤ q then ⌊q⌋ else ⌈q⌉

/-- Python `n or 1` for an integer `n`: `1` when `n = 0`, else `n`. -/
def orOne (n : ℤ) : ℤ := if n = 0 then 1 else n

/-- The drawing area with two exclusion zones, from
`detect_drawing_area.DrawingArea`. -/
structure DrawingArea where
  top : ℤ
  left : ℤ
  right : ℤ
  bottom : ℤ
  cutout_left : ℤ
  cutout_top : ℤ
  top_excl_right : ℤ
  top_excl_bottom : ℤ
deriving DecidableEq, Repr

/-- `DrawingArea.is_inside`: inside the outer rectangle, avoiding both
exclusion corner rectangles. -/
def DrawingArea.is_inside (a : DrawingArea) (x y : ℤ) : Bool :=
  if a.left ≤ x ∧ x ≤ a.right ∧ a.top ≤ y ∧ y ≤ a.bottom then
    if x ≤ a.top_excl_right ∧ y ≤ a.top_excl_bottom then false
    else if a.cutout_left ≤ x ∧ a.cutout_top ≤ y then false
    else true
  else false

/-- `DrawingArea.center`: centre of the main drawable lobe (Python `//` is
floor division, `Int.fdiv`). -/
def DrawingArea.center (a : DrawingArea) : ℤ × ℤ :=
  (max a.left a.top_excl_right +
     (a.cutout_left - max a.left a.top_excl_right).fdiv 2,
   max a.top a.top_excl_bottom +
     (a.bottom - max a.top a.top_excl_bottom).fdiv 2)

/-- `DrawingArea.get_usable_rect`: the rectangle
`(x1, y1, x2, y2)` returned for a given margin. -/
def DrawingArea.get_usable_rect (a : DrawingArea) (margin : ℤ) : ℤ × ℤ × ℤ × ℤ :=
  (max a.left a.top_excl_right + margin,
   max a.top a.top_excl_bottom + margin,
   a.cutout_left - margin,
   a.bottom - margin)

/-! ### Containment soundness and the centre point (claims about `is_inside`) -/

/-- A `DrawingArea` satisfying the documented shape invariant on which
`is_inside` nevertheless rejects the area's own centre: the bottom-right
exclusion starts left of the top-left exclusion's right edge, so the centre
of the "main lobe" lands inside the bottom-right exclusion. -/
def c2exArea : DrawingArea :=
  { top := 0, left := 0, right := 100, bottom := 100,
    cutout_left := 20, cutout_top := 20,
    top_excl_right := 50, top_excl_bottom := 10 }

/-- C2 counterexample: `c2exArea` satisfies the documented invariant
(`left < top_excl_right < right`, `top < top_excl_bottom < bottom`,
`left < cutout_left < right`, `top < cutout_top < bottom`), its centre is
`(35, 55)`, and `is_inside` is `false` there, refuting "is_inside returns
true for the area's own center" for every instance. -/
theorem is_inside_center_false_cex :
    DrawingArea.center c2exArea = (35, 55) ∧
    DrawingArea.is_inside c2exArea 35 55 = false ∧
    (c2exArea.left < c2exArea.top_excl_right ∧
     c2exArea.top_excl_right < c2exArea.right ∧
     c2exArea.top < c2exArea.top_excl_bottom ∧
     c2exArea.top_excl_bottom < c2exArea.bottom ∧
     c2exArea.left < c2exArea.cutout_left ∧
     c2exArea.cutout_left < c2exArea.right ∧
     c2exArea.top < c2exArea.cutout_top ∧
     c2exArea.cutout_top < c2exArea.bottom) := by
  refine ⟨by decide, by decide, by decide⟩

/-- C2 (amended): `is_inside` is `false` at every point satisfying either
exclusion-membership test (`x ≤ top_excl_right ∧ y ≤ top_excl_bottom`, resp.
`x ≥ cutout_left ∧ y ≥ cutout_top`) or lying outside the outer rectangle;
and `is_inside` is `true` at the area's own centre provided the top-left
exclusion is strictly inside the outer rectangle and the bottom-right
exclusion's left edge is at least two pixels right of the top-left
exclusion's right edge. -/
theorem is_inside_soundness (a : DrawingArea) :
    (∀ x y : ℤ,
      ((x ≤ a.top_excl_right ∧ y ≤ a.top_excl_bottom) ∨
       (a.cutout_left ≤ x ∧ a.cutout_top ≤ y) ∨
       ¬ (a.left ≤ x ∧ x ≤ a.right ∧ a.top ≤ y ∧ y ≤ a.bottom)) →
      a.is_inside x y = false) ∧
    (a.left < a.top_excl_right → a.top < a.top_excl_bottom →
     a.top_excl_bottom < a.bottom → a.top_excl_right + 1 < a.cutout_left →
     a.cutout_left < a.right →
     a.is_inside a.center.1 a.center.2 = true) := by
  constructor
  · intro x y h
    simp only [DrawingArea.is_inside]
    split_ifs with h1 h2 h3
    · rfl
    · rfl
    · exfalso; omega
    · rfl
  · intro h1 h2 h3 h4 h5
    have hml : max a.left a.top_excl_right = a.top_excl_right :=
      max_eq_right (le_of_lt h1)
    have hmt : max a.top a.top_excl_bottom = a.top_excl_bottom :=
      max_eq_right (le_of_lt h2)
    have hc : a.center =
        (a.top_excl_right + (a.cutout_left - a.top_excl_right) / 2,
         a.top_excl_bottom + (a.bottom - a.top_excl_bottom) / 2) := by
      simp only [DrawingArea.center, hml, hmt]
      rw [Int.fdiv_eq_ediv _ (by omega), Int.fdiv_eq_ediv _ (by omega)]
    rw [hc]
    simp only [DrawingArea.is_inside]
    split_ifs with g1 g2 g3
    · exfalso; omega
    · exfalso; omega
    · rfl
    · exfalso; omega

/-- A well-shaped area used to instantiate the `is_inside` theorems. -/
def w2Area : DrawingArea :=
  { top := 0, left := 0, right := 100, bottom := 100,
    cutout_left := 60, cutout_top := 60,
    top_excl_right := 20, top_excl_bottom := 20 }

/-- C2 witness: both parts of `is_inside_soundness` applied at `w2Area`:
the point `(5, 5)` is excluded by the top-left zone, and the centre is
inside. -/
theorem is_inside_soundness_witness :
    DrawingArea.is_inside w2Area 5 5 = false ∧
    DrawingArea.is_inside w2Area w2Area.center.1 w2Area.center.2 = true :=
  ⟨(is_inside_soundness w2Area).1 5 5 (Or.inl ⟨by decide, by decide⟩),
   (is_inside_soundness w2Area).2 (by decide) (by decide) (by decide)
     (by decide) (by decide)⟩

/-- C10: the outer rectangle is closed for `is_inside`: a point lying
exactly on an outer edge which is inside the outer rectangle and satisfies
neither exclusion-membership test is reported inside. -/
theorem is_inside_outer_edge_closed (a : DrawingArea) (x y : ℤ)
    (hin : a.left ≤ x ∧ x ≤ a.right ∧ a.top ≤ y ∧ y ≤ a.bottom)
    (hedge : x = a.left ∨ x = a.right ∨ y = a.top ∨ y = a.bottom)
    (hne1 : ¬ (x ≤ a.top_excl_right ∧ y ≤ a.top_excl_bottom))
    (hne2 : ¬ (a.cutout_left ≤ x ∧ a.cutout_top ≤ y)) :
    a.is_inside x y = true := by
  simp only [DrawingArea.is_inside]
  rw [if_pos hin, if_neg hne1, if_neg hne2]

/-- C10 witness: on `w2Area` the left-edge point `(0, 50)` is inside. -/
theorem is_inside_outer_edge_closed_witness :
    DrawingArea.is_inside w2Area 0 50 = true :=
  is_inside_outer_edge_closed w2Area 0 50 (by decide) (Or.inl (by decide))
    (by decide) (by decide)

/-! ### The usable rectangle (claim about `get_usable_rect`) -/

/-- An area on which the rectangle returned by `get_usable_rect` is not the
largest axis-aligned rectangle avoiding both exclusions: the bottom-right
exclusion is short (`cutout_top = 90`), so a full-width horizontal band
strictly between the two exclusions is markedly larger. -/
def c7exArea : DrawingArea :=
  { top := 0, left := 0, right := 100, bottom := 100,
    cutout_left := 60, cutout_top := 90,
    top_excl_right := 10, top_excl_bottom := 10 }

/-- C7 counterexample: with margin 1 on `c7exArea`, `get_usable_rect`
returns the left-lobe rectangle `(11, 11)-(59, 99)` of geometric area
`48 × 88 = 4224`, yet the margin-shrunk full-width band `(1, 12)-(99, 88)`
also lies entirely inside the drawable area and has strictly greater area
`98 × 76 = 7448`; so the returned rectangle is not the largest one avoiding
both exclusions. -/
theorem usable_rect_not_largest_cex :
    DrawingArea.get_usable_rect c7exArea 1 = (11, 11, 59, 99) ∧
    (∀ x y : ℤ, 1 ≤ x → x ≤ 99 → 12 ≤ y → y ≤ 88 →
      c7exArea.is_inside x y = true) ∧
    (99 - 1) * (88 - 12) > (59 - 11) * (99 - 11) := by
  refine ⟨by decide, ?_, by decide⟩
  intro x y h1 h2 h3 h4
  simp only [c7exArea, DrawingArea.is_inside]
  split_ifs with g1 g2 g3
  · exfalso; omega
  · exfalso; omega
  · rfl
  · exfalso; omega

/-- C7 (amended): `get_usable_rect margin` returns the left-lobe rectangle
from `(max left topExclRight + margin, max top topExclBottom + margin)` to
`(cutoutLeft − margin, bottom − margin)`; for any margin ≥ 1 (and
`cutout_left ≤ right`) every point of that rectangle avoids both exclusions
and lies in the drawable area — but it need not be the largest such
rectangle. -/
theorem usable_rect_left_lobe (a : DrawingArea) (m : ℤ) :
    a.get_usable_rect m =
      (max a.left a.top_excl_right + m, max a.top a.top_excl_bottom + m,
       a.cutout_left - m, a.bottom - m) ∧
    (1 ≤ m → a.cutout_left ≤ a.right →
      ∀ x y : ℤ, max a.left a.top_excl_right + m ≤ x →
        x ≤ a.cutout_left - m →
        max a.top a.top_excl_bottom + m ≤ y → y ≤ a.bottom - m →
        a.is_inside x y = true) := by
  refine ⟨rfl, ?_⟩
  intro hm hcr x y hx1 hx2 hy1 hy2
  obtain ⟨hxl, hxr⟩ :=
    max_le_iff.mp (by omega : max a.left a.top_excl_right ≤ x - m)
  obtain ⟨hyt, hyb⟩ :=
    max_le_iff.mp (by omega : max a.top a.top_excl_bottom ≤ y - m)
  simp only [DrawingArea.is_inside]
  split_ifs with g1 g2 g3
  · exfalso; omega
  · exfalso; omega
  · rfl
  · exfalso; omega

/-- C7 witness: `usable_rect_left_lobe` applied to `w2Area` with margin 1
at the interior point `(30, 30)` of the returned rectangle. -/
theorem usable_rect_left_lobe_witness :
    DrawingArea.is_inside w2Area 30 30 = true :=
  (usable_rect_left_lobe w2Area 1).2 (by decide) (by decide) 30 30
    (by decide) (by decide) (by decide) (by decide)

/-! ### One-shot fit: `image_draw.scale_paths_to_area` -/

/-- Extracted paths plus source image dimensions
(`image_draw.ImagePaths`). -/
structure ImagePaths where
  paths : List (List (ℤ × ℤ))
  width : ℤ
  height : ℤ

/-- Available width of the target rectangle: the whole outer width when the
full L-shape is allowed, else only from the area's left edge to the
bottom-right exclusion's left edge. -/
def fitAvailW (a : DrawingArea) (margin : ℤ) (use_full_area : Bool) : ℤ :=
  if use_full_area then a.right - a.left - 2 * margin
  else a.cutout_left - a.left - 2 * margin

/-- Available height of the target rectangle. -/
def fitAvailH (a : DrawingArea) (margin : ℤ) : ℤ :=
  a.bottom - a.top - 2 * margin

/-- Horizontal scale factor of the one-shot fit (Python float division,
modelled exactly over ℚ). -/
def fitScaleX (ip : ImagePaths) (a : DrawingArea) (margin : ℤ)
    (maintain_aspect use_full_area : Bool) : ℚ :=
  if maintain_aspect then
    min ((fitAvailW a margin use_full_area : ℚ) / (ip.width : ℚ))
        ((fitAvailH a margin : ℚ) / (ip.height : ℚ))
  else (fitAvailW a margin use_full_area : ℚ) / (ip.width : ℚ)

/-- Vertical scale factor of the one-shot fit. -/
def fitScaleY (ip : ImagePaths) (a : DrawingArea) (margin : ℤ)
    (maintain_aspect use_full_area : Bool) : ℚ :=
  if maintain_aspect then
    min ((fitAvailW a margin use_full_area : ℚ) / (ip.width : ℚ))
        ((fitAvailH a margin : ℚ) / (ip.height : ℚ))
  else (fitAvailH a margin : ℚ) / (ip.height : ℚ)

/-- Horizontal centering offset of the one-shot fit. -/
def fitOffX (ip : ImagePaths) (a : DrawingArea) (margin : ℤ)
    (maintain_aspect use_full_area : Bool) : ℚ :=
  (a.left : ℚ) + (margin : ℚ) +
    ((fitAvailW a margin use_full_area : ℚ) -
      (ip.width : ℚ) * fitScaleX ip a margin maintain_aspect use_full_area) / 2

/-- Vertical centering offset of the one-shot fit. -/
def fitOffY (ip : ImagePaths) (a : DrawingArea) (margin : ℤ)
    (maintain_aspect use_full_area : Bool) : ℚ :=
  (a.top : ℚ) + (margin : ℚ) +
    ((fitAvailH a margin : ℚ) -
      (ip.height : ℚ) * fitScaleY ip a margin maintain_aspect use_full_area) / 2

/-- Image of one source point under the one-shot fit
(`new_x = int(offset_x + x * scale_x)` and its `y` counterpart). -/
def fitPoint (ip : ImagePaths) (a : DrawingArea) (margin : ℤ)
    (maintain_aspect use_full_area : Bool) (p : ℤ × ℤ) : ℤ × ℤ :=
  (pyTrunc (fitOffX ip a margin maintain_aspect use_full_area +
      (p.1 : ℚ) * fitScaleX ip a margin maintain_aspect use_full_area),
   pyTrunc (fitOffY ip a margin maintain_aspect use_full_area +
      (p.2 : ℚ) * fitScaleY ip a margin maintain_aspect use_full_area))

/-- `image_draw.scale_paths_to_area`.  `none` models the Python
`ZeroDivisionError` raised when a source dimension is zero (the code does
not clamp the divisors). -/
def scale_paths_to_area (ip : ImagePaths) (a : DrawingArea) (margin : ℤ)
    (maintain_aspect use_full_area : Bool) : Option (List (List (ℤ × ℤ))) :=
  if ip.paths = [] then some [] else
  if ip.width = 0 ∨ ip.height = 0 then none else
  some ((ip.paths.map fun path =>
      (path.map (fitPoint ip a margin maintain_aspect use_full_area)).filter
        fun q => a.is_inside q.1 q.2).filter
    fun sp => 2 ≤ sp.length)

/-! ### Interactive per-layer transform: the `generate` body of
`revodraw.draw` -/

/-- Per-layer input of the `/draw` endpoint: the layer's paths and its
transform parameters.  `cosr` and `sinr` stand for the float values
`math.cos(math.radians rot)` and `math.sin(math.radians rot)`, supplied as
exact rationals since the embedding is over ℚ; they are only consumed when
`rot ≠ 0`, exactly as in the source. -/
structure DrawLayer where
  paths : List (List (ℤ × ℤ))
  offset_x : ℚ
  offset_y : ℚ
  scale_x : ℚ
  scale_y : ℚ
  rot : ℚ
  cosr : ℚ
  sinr : ℚ
  flip_h : Bool
  flip_v : Bool

/-- `avail_left = max(left, top_excl_right) + 20`. -/
def genAvailLeft (a : DrawingArea) : ℤ := max a.left a.top_excl_right + 20

/-- `avail_top = max(top, top_excl_bottom) + 20`. -/
def genAvailTop (a : DrawingArea) : ℤ := max a.top a.top_excl_bottom + 20

/-- `avail_w = (cutout_left - 20) - avail_left`. -/
def genAvailW (a : DrawingArea) : ℤ := (a.cutout_left - 20) - genAvailLeft a

/-- `avail_h = (bottom - 20) - avail_top`. -/
def genAvailH (a : DrawingArea) : ℤ := (a.bottom - 20) - genAvailTop a

/-- `center_x = avail_left + avail_w / 2`. -/
def genCenterX (a : DrawingArea) : ℚ := (genAvailLeft a : ℚ) + (genAvailW a : ℚ) / 2

/-- `center_y = avail_top + avail_h / 2`. -/
def genCenterY (a : DrawingArea) : ℚ := (genAvailTop a : ℚ) + (genAvailH a : ℚ) / 2

/-- `min_x` over a flattened point list (0 when there are no points; the
callers only use it when at least one point exists). -/
def ptsMinX (pts : List (ℤ × ℤ)) : ℤ :=
  match pts with
  | [] => 0
  | p :: rest => rest.foldl (fun m q => min m q.1) p.1

/-- `min_y` over a flattened point list. -/
def ptsMinY (pts : List (ℤ × ℤ)) : ℤ :=
  match pts with
  | [] => 0
  | p :: rest => rest.foldl (fun m q => min m q.2) p.2

/-- `max_x` over a flattened point list. -/
def ptsMaxX (pts : List (ℤ × ℤ)) : ℤ :=
  match pts with
  | [] => 0
  | p :: rest => rest.foldl (fun m q => max m q.1) p.1

/-- `max_y` over a flattened point list. -/
def ptsMaxY (pts : List (ℤ × ℤ)) : ℤ :=
  match pts with
  | [] => 0
  | p :: rest => rest.foldl (fun m q => max m q.2) p.2

/-- `path_w = max_x - min_x or 1`. -/
def pathW (pts : List (ℤ × ℤ)) : ℤ := orOne (ptsMaxX pts - ptsMinX pts)

/-- `path_h = max_y - min_y or 1`. -/
def pathH (pts : List (ℤ × ℤ)) : ℤ := orOne (ptsMaxY pts - ptsMinY pts)

/-- `path_center_x = min_x + path_w / 2`. -/
def pathCX (pts : List (ℤ × ℤ)) : ℚ := (ptsMinX pts : ℚ) + (pathW pts : ℚ) / 2

/-- `path_center_y = min_y + path_h / 2`. -/
def pathCY (pts : List (ℤ × ℤ)) : ℚ := (ptsMinY pts : ℚ) + (pathH pts : ℚ) / 2

/-- `base_scale = min(avail_w / path_w, avail_h / path_h)`. -/
def baseScale (a : DrawingArea) (pts : List (ℤ × ℤ)) : ℚ :=
  min ((genAvailW a : ℚ) / (pathW pts : ℚ)) ((genAvailH a : ℚ) / (pathH pts : ℚ))

/-- The per-layer `transform_point` closure of `generate`: translate to the
path centroid, flip, rotate (only when `rot ≠ 0`), scale by
`base_scale * scale`, translate to the area centre plus the layer offset,
then truncate to ints. -/
def transform_point (a : DrawingArea) (ly : DrawLayer) (p : ℤ × ℤ) : ℤ × ℤ :=
  let pts := ly.paths.flatten
  let x0 : ℚ := (p.1 : ℚ) - pathCX pts
  let y0 : ℚ := (p.2 : ℚ) - pathCY pts
  let x1 := if ly.flip_h then -x0 else x0
  let y1 := if ly.flip_v then -y0 else y0
  let x2 := if ly.rot ≠ 0 then x1 * ly.cosr - y1 * ly.sinr else x1
  let y2 := if ly.rot ≠ 0 then x1 * ly.sinr + y1 * ly.cosr else y1
  let x3 := x2 * (baseScale a pts * ly.scale_x)
  let y3 := y2 * (baseScale a pts * ly.scale_y)
  (pyTrunc (x3 + (genCenterX a + ly.offset_x)),
   pyTrunc (y3 + (genCenterY a + ly.offset_y)))

/-- Processing of one layer inside `generate`: skip an empty layer
(`if not paths: continue`); `none` models the `ValueError` Python's `min`
raises when the layer has paths but no points at all; otherwise transform
every point, keep the points inside the area, and keep only paths with at
least two surviving points. -/
def processLayer (a : DrawingArea) (ly : DrawLayer) :
    Option (List (List (ℤ × ℤ))) :=
  if ly.paths = [] then some [] else
  if ly.paths.flatten = [] then none else
  some ((ly.paths.map fun path =>
      (path.map (transform_point a ly)).filter
        fun q => a.is_inside q.1 q.2).filter
    fun sp => 2 ≤ sp.length)

/-- The whole path-collection loop of `generate`: layers processed in
order, their surviving paths concatenated; any exception aborts the
request. -/
def processLayers (a : DrawingArea) : List DrawLayer → Option (List (List (ℤ × ℤ)))
  | [] => some []
  | ly :: rest => do
      let out ← processLayer a ly
      let outs ← processLayers a rest
      pure (out ++ outs)

/-! ### Claim C1: containment of every fitted output point -/

/-- Both fitting operations produce their output by the same
map-transform / filter-inside / drop-short-paths shape; this lemma packages
what membership in such an output implies. -/
theorem mem_transform_filter_core (f : (ℤ × ℤ) → ℤ × ℤ) (a : DrawingArea)
    (paths : List (List (ℤ × ℤ))) (path : List (ℤ × ℤ))
    (hp : path ∈ (paths.map fun src =>
        (src.map f).filter fun q => a.is_inside q.1 q.2).filter
      fun sp => 2 ≤ sp.length) :
    2 ≤ path.length ∧ (∀ p ∈ path, a.is_inside p.1 p.2 = true) ∧
    ∃ src ∈ paths,
      path = (src.map f).filter fun q => a.is_inside q.1 q.2 := by
  obtain ⟨hmem, hlen⟩ := List.mem_filter.mp hp
  obtain ⟨src, hsrc, heq⟩ := List.mem_map.mp hmem
  refine ⟨by exact_mod_cast of_decide_eq_true hlen, ?_, src, hsrc, heq.symm⟩
  intro p hpp
  rw [← heq] at hpp
  exact (List.mem_filter.mp hpp).2

/-- C1: every point of every path output by the one-shot fit
(`scale_paths_to_area`) and by the per-layer interactive transform
(`generate`) satisfies `is_inside` of the target area; each output path is
the in-order filter of the transformed source path (so surviving points
keep their original order), and paths with fewer than two surviving points
are discarded (every output path has length ≥ 2). -/
theorem fit_output_points_inside :
    (∀ (ip : ImagePaths) (a : DrawingArea) (margin : ℤ)
       (maintain_aspect use_full_area : Bool) (out : List (List (ℤ × ℤ))),
      scale_paths_to_area ip a margin maintain_aspect use_full_area =
          some out →
      ∀ path ∈ out,
        2 ≤ path.length ∧ (∀ p ∈ path, a.is_inside p.1 p.2 = true) ∧
        ∃ src ∈ ip.paths,
          path = (src.map
              (fitPoint ip a margin maintain_aspect use_full_area)).filter
            fun q => a.is_inside q.1 q.2) ∧
    (∀ (a : DrawingArea) (layers : List DrawLayer)
       (out : List (List (ℤ × ℤ))),
      processLayers a layers = some out →
      ∀ path ∈ out,
        2 ≤ path.length ∧ (∀ p ∈ path, a.is_inside p.1 p.2 = true) ∧
        ∃ ly ∈ layers, ∃ src ∈ ly.paths,
          path = (src.map (transform_point a ly)).filter
            fun q => a.is_inside q.1 q.2) := by
  constructor
  · intro ip a margin maintain_aspect use_full_area out h path hp
    by_cases h1 : ip.paths = []
    · rw [scale_paths_to_area, if_pos h1] at h
      cases h
      cases hp
    · by_cases h2 : ip.width = 0 ∨ ip.height = 0
      · rw [scale_paths_to_area, if_neg h1, if_pos h2] at h
        cases h
      · rw [scale_paths_to_area, if_neg h1, if_neg h2] at h
        cases h
        exact mem_transform_filter_core _ a ip.paths path hp
  · intro a layers
    induction layers with
    | nil =>
        intro out h path hp
        cases h
        cases hp
    | cons ly rest ih =>
        intro out h path hp
        rw [processLayers] at h
        cases hly : processLayer a ly with
        | none => rw [hly] at h; cases h
        | some o1 =>
            cases hrest : processLayers a rest with
            | none => rw [hly, hrest] at h; cases h
            | some o2 =>
                rw [hly, hrest] at h
                simp only [Option.bind_eq_bind, Option.some_bind,
                  Option.some.injEq, pure] at h
                subst h
                rcases List.mem_append.mp hp with hp1 | hp2
                · by_cases e1 : ly.paths = []
                  · rw [processLayer, if_pos e1] at hly
                    cases hly; cases hp1
                  · by_cases e2 : ly.paths.flatten = []
                    · rw [processLayer, if_neg e1, if_pos e2] at hly
                      cases hly
                    · rw [processLayer, if_neg e1, if_neg e2] at hly
                      cases hly
                      obtain ⟨hl, hinside, src, hsrc, heq⟩ :=
                        mem_transform_filter_core (transform_point a ly) a
                          ly.paths path hp1
                      exact ⟨hl, hinside, ly, List.mem_cons_self ly rest,
                        src, hsrc, heq⟩
                · obtain ⟨hl, hinside, ly2, hly2, src, hsrc, heq⟩ :=
                    ih o2 hrest path hp2
                  exact ⟨hl, hinside, ly2, List.mem_cons_of_mem ly hly2,
                    src, hsrc, heq⟩

/-- A well-shaped area for instantiating the fitting theorems. -/
def w1Area : DrawingArea :=
  { top := 0, left := 0, right := 1000, bottom := 1000,
    cutout_left := 600, cutout_top := 700,
    top_excl_right := 100, top_excl_bottom := 100 }

/-- A 100×100 source with one diagonal path, for the fitting theorems. -/
def w1IP : ImagePaths := ⟨[[(0, 0), (100, 100)]], 100, 100⟩

/-- C1 witness: the one-shot fit of `w1IP` into `w1Area` outputs the single
path `[(20, 220), (580, 780)]`; `fit_output_points_inside` applied there
yields its length bound, the containment of its points, and its filter
decomposition. -/
theorem fit_output_points_inside_witness :
    2 ≤ ([((20 : ℤ), (220 : ℤ)), (580, 780)]).length ∧
    (∀ p ∈ [((20 : ℤ), (220 : ℤ)), (580, 780)],
      w1Area.is_inside p.1 p.2 = true) ∧
    ∃ src ∈ w1IP.paths,
      [((20 : ℤ), (220 : ℤ)), (580, 780)] =
        (src.map (fitPoint w1IP w1Area 20 true false)).filter
          fun q => w1Area.is_inside q.1 q.2 :=
  fit_output_points_inside.1 w1IP w1Area 20 true false
    [[(20, 220), (580, 780)]]
    (by norm_num [scale_paths_to_area, w1IP, w1Area, fitPoint, fitOffX,
      fitOffY, fitScaleX, fitScaleY, fitAvailW, fitAvailH, pyTrunc,
      DrawingArea.is_inside, List.filter, min_def])
    [(20, 220), (580, 780)] (by simp)

/-! ### Claim C3: identity layer transform vs. the one-shot fit -/

/-- The identity-parameter layer over the same source as `w1IP`. -/
def c3Layer : DrawLayer :=
  { paths := [[(0, 0), (100, 100)]], offset_x := 0, offset_y := 0,
    scale_x := 1, scale_y := 1, rot := 0, cosr := 1, sinr := 0,
    flip_h := false, flip_v := false }

/-- C3 counterexample: on the same source and target, the one-shot fit
places the path at `[(20, 220), (580, 780)]` while the identity layer
transform places it at `[(120, 320), (580, 780)]`: the first points differ
by 100 pixels in each coordinate, far beyond integer rounding.  (The layer
transform insets the available rectangle from
`max(left, top_excl_right)`/`max(top, top_excl_bottom)` and scales the path
bounding box, while the one-shot fit measures from `left`/`top` and scales
the image dimensions.) -/
theorem layer_identity_differs_from_fit_cex :
    scale_paths_to_area w1IP w1Area 20 true false =
      some [[(20, 220), (580, 780)]] ∧
    processLayers w1Area [c3Layer] = some [[(120, 320), (580, 780)]] ∧
    ¬ ((120 : ℤ) - 20 ≤ 1 ∧ (320 : ℤ) - 220 ≤ 1) := by
  refine ⟨?_, ?_, by decide⟩
  · norm_num [scale_paths_to_area, w1IP, w1Area, fitPoint, fitOffX,
      fitOffY, fitScaleX, fitScaleY, fitAvailW, fitAvailH, pyTrunc,
      DrawingArea.is_inside, List.filter, min_def]
  · norm_num [processLayers, processLayer, c3Layer, w1Area, transform_point,
      pathCX, pathCY, pathW, pathH, ptsMinX, ptsMinY, ptsMaxX, ptsMaxY,
      baseScale, genCenterX, genCenterY, genAvailLeft, genAvailTop,
      genAvailW, genAvailH, orOne, pyTrunc, DrawingArea.is_inside,
      List.filter, min_def, List.flatten]
    intro h
    exact absurd h (by simp)

/-- C3 (amended): the identity layer transform (rotation 0, no flips,
scale 1, offset (0, 0)) reproduces the one-shot aspect-locked safe-lobe fit
with margin 20 exactly — provided the two computations agree on their
inputs: the area's top-left exclusion does not intrude past the outer
left/top edges (`top_excl_right ≤ left`, `top_excl_bottom ≤ top`, so both
measure the same available rectangle) and the source's point bounding box
is exactly `(0, 0)-(width, height)` (so both measure the same source box).
Without those extra conditions the two placements differ (see the
counterexample). -/
theorem layer_identity_matches_fit (ip : ImagePaths) (a : DrawingArea)
    (ly : DrawLayer)
    (hpaths : ly.paths = ip.paths)
    (hox : ly.offset_x = 0) (hoy : ly.offset_y = 0)
    (hsx : ly.scale_x = 1) (hsy : ly.scale_y = 1) (hrot : ly.rot = 0)
    (hfh : ly.flip_h = false) (hfv : ly.flip_v = false)
    (h1 : a.top_excl_right ≤ a.left) (h2 : a.top_excl_bottom ≤ a.top)
    (hminx : ptsMinX ip.paths.flatten = 0)
    (hminy : ptsMinY ip.paths.flatten = 0)
    (hmaxx : ptsMaxX ip.paths.flatten = ip.width)
    (hmaxy : ptsMaxY ip.paths.flatten = ip.height)
    (hw : ip.width ≠ 0) (hh : ip.height ≠ 0) :
    processLayers a [ly] = scale_paths_to_area ip a 20 true false := by
  by_cases hemp : ip.paths = []
  · rw [hemp] at hpaths
    rw [processLayers, processLayer, if_pos hpaths, processLayers,
      scale_paths_to_area, if_pos hemp]
    rfl
  · have hfl : ip.paths.flatten ≠ [] := by
      intro hf
      rw [hf] at hmaxx
      exact hw (by simpa [ptsMaxX] using hmaxx.symm)
    have hW : pathW ip.paths.flatten = ip.width := by
      rw [pathW, hmaxx, hminx, sub_zero, orOne, if_neg hw]
    have hH : pathH ip.paths.flatten = ip.height := by
      rw [pathH, hmaxy, hminy, sub_zero, orOne, if_neg hh]
    have hAW : genAvailW a = fitAvailW a 20 false := by
      rw [genAvailW, genAvailLeft, max_eq_left h1, fitAvailW]
      norm_num
      ring
    have hAH : genAvailH a = fitAvailH a 20 := by
      rw [genAvailH, genAvailTop, max_eq_left h2, fitAvailH]
      ring
    have hbs : baseScale a ip.paths.flatten = fitScaleX ip a 20 true false := by
      rw [baseScale, fitScaleX, hW, hH, hAW, hAH, if_pos rfl]
    have hpt : transform_point a ly = fitPoint ip a 20 true false := by
      funext p
      simp only [transform_point, fitPoint, hpaths, hox, hoy, hsx, hsy,
        hrot, hfh, hfv, if_false, ne_eq, not_true_eq_false,
        Bool.false_eq_true]
      have hcx : pathCX ip.paths.flatten = (ip.width : ℚ) / 2 := by
        rw [pathCX, hminx, hW]; push_cast; ring
      have hcy : pathCY ip.paths.flatten = (ip.height : ℚ) / 2 := by
        rw [pathCY, hminy, hH]; push_cast; ring
      have hgcx : genCenterX a =
          (a.left : ℚ) + 20 + (fitAvailW a 20 false : ℚ) / 2 := by
        rw [genCenterX, genAvailLeft, max_eq_left h1, hAW]; push_cast; ring
      have hgcy : genCenterY a =
          (a.top : ℚ) + 20 + (fitAvailH a 20 : ℚ) / 2 := by
        rw [genCenterY, genAvailTop, max_eq_left h2, hAH]; push_cast; ring
      rw [hcx, hcy, hbs, hgcx, hgcy, fitOffX, fitOffY]
      have hsxy : fitScaleY ip a 20 true false =
          fitScaleX ip a 20 true false := rfl
      rw [hsxy]
      congr 1 <;> · congr 1; push_cast; ring
    rw [processLayers, processLayer, if_neg (hpaths ▸ hemp),
      if_neg (hpaths ▸ hfl), processLayers, scale_paths_to_area,
      if_neg hemp, if_neg (not_or.mpr ⟨hw, hh⟩)]
    simp only [Option.bind_eq_bind, Option.some_bind, List.append_nil]
    rw [hpaths, hpt]
    rfl

/-- An area whose top-left exclusion stops at the outer edges, used to
instantiate the identity-transform equivalence. -/
def w3Area : DrawingArea :=
  { top := 10, left := 10, right := 200, bottom := 200,
    cutout_left := 150, cutout_top := 150,
    top_excl_right := 5, top_excl_bottom := 5 }

/-- C3 witness: `layer_identity_matches_fit` applied to the concrete layer
`c3Layer` over the source `w1IP` and the target `w3Area`. -/
theorem layer_identity_matches_fit_witness :
    processLayers w3Area [c3Layer] = scale_paths_to_area w1IP w3Area 20 true false :=
  layer_identity_matches_fit w1IP w3Area c3Layer rfl rfl rfl rfl rfl rfl
    rfl rfl (by decide) (by decide) (by decide) (by decide) (by decide)
    (by decide) (by decide) (by decide)

/-! ### Claim C4: the one-shot fit's scale and centering formulas -/

/-- C4: with aspect lock and full-L-shape disallowed, the one-shot fit uses
the single uniform scale factor `min(availW/srcW, availH/srcH)` on both
axes, offsets by `areaOrigin + margin + (available − scaled)/2` per axis,
and measures the available width only from the area's left edge to the
bottom-right exclusion's left edge. -/
theorem fit_scale_offset_formulas (ip : ImagePaths) (a : DrawingArea)
    (margin : ℤ) (hw : ip.width ≠ 0) (hh : ip.height ≠ 0) :
    fitAvailW a margin false = a.cutout_left - a.left - 2 * margin ∧
    fitScaleX ip a margin true false =
      min ((fitAvailW a margin false : ℚ) / (ip.width : ℚ))
          ((fitAvailH a margin : ℚ) / (ip.height : ℚ)) ∧
    fitScaleY ip a margin true false = fitScaleX ip a margin true false ∧
    fitOffX ip a margin true false =
      (a.left : ℚ) + (margin : ℚ) +
        ((fitAvailW a margin false : ℚ) -
          (ip.width : ℚ) * fitScaleX ip a margin true false) / 2 ∧
    fitOffY ip a margin true false =
      (a.top : ℚ) + (margin : ℚ) +
        ((fitAvailH a margin : ℚ) -
          (ip.height : ℚ) * fitScaleY ip a margin true false) / 2 ∧
    (ip.paths ≠ [] →
      scale_paths_to_area ip a margin true false =
        some ((ip.paths.map fun path =>
            (path.map (fitPoint ip a margin true false)).filter
              fun q => a.is_inside q.1 q.2).filter
          fun sp => 2 ≤ sp.length)) := by
  refine ⟨rfl, rfl, rfl, rfl, rfl, ?_⟩
  intro hne
  rw [scale_paths_to_area, if_neg hne, if_neg (not_or.mpr ⟨hw, hh⟩)]

/-- C4 witness: `fit_scale_offset_formulas` applied to `w1IP` and `w1Area`
with margin 20. -/
theorem fit_scale_offset_formulas_witness :
    fitScaleY w1IP w1Area 20 true false = fitScaleX w1IP w1Area 20 true false ∧
    scale_paths_to_area w1IP w1Area 20 true false =
      some ((w1IP.paths.map fun path =>
          (path.map (fitPoint w1IP w1Area 20 true false)).filter
            fun q => w1Area.is_inside q.1 q.2).filter
        fun sp => 2 ≤ sp.length) :=
  ⟨(fit_scale_offset_formulas w1IP w1Area 20 (by decide) (by decide)).2.2.1,
   (fit_scale_offset_formulas w1IP w1Area 20 (by decide)
     (by decide)).2.2.2.2.2 (by decide)⟩

/-! ### Claim C9: degenerate geometry and division by zero -/

/-- A degenerate source: one single-point path and a zero image width. -/
def c9IP : ImagePaths := ⟨[[(0, 0)]], 0, 7⟩

/-- C9 counterexample: the one-shot fit does not clamp its divisors — on a
source with `width = 0` it divides by zero (Python `ZeroDivisionError`,
modelled as `none`) instead of clamping the dimension to 1. -/
theorem fit_zero_width_divides_cex :
    scale_paths_to_area c9IP w2Area 20 true false = none := rfl

/-- Helper: the running minimum of the x-coordinates never exceeds the
running maximum. -/
theorem foldl_min_le_foldl_max (f : ℤ × ℤ → ℤ) (l : List (ℤ × ℤ)) :
    ∀ s t : ℤ, s ≤ t →
      l.foldl (fun m q => min m (f q)) s ≤ l.foldl (fun m q => max m (f q)) t := by
  induction l with
  | nil => intro s t h; exact h
  | cons q l ih =>
      intro s t h
      exact ih _ _ (le_trans (min_le_left s (f q)) (le_trans h (le_max_left t (f q))))

/-- The clamped bounding-box extents of the layer transform are ≥ 1. -/
theorem pathW_pos (pts : List (ℤ × ℤ)) : 1 ≤ pathW pts ∧ 1 ≤ pathH pts := by
  have hx : ptsMinX pts ≤ ptsMaxX pts := by
    cases pts with
    | nil => simp [ptsMinX, ptsMaxX]
    | cons p rest =>
        simpa [ptsMinX, ptsMaxX] using
          foldl_min_le_foldl_max (fun q => q.1) rest p.1 p.1 le_rfl
  have hy : ptsMinY pts ≤ ptsMaxY pts := by
    cases pts with
    | nil => simp [ptsMinY, ptsMaxY]
    | cons p rest =>
        simpa [ptsMinY, ptsMaxY] using
          foldl_min_le_foldl_max (fun q => q.2) rest p.2 p.2 le_rfl
  constructor
  · rw [pathW, orOne]
    split_ifs with h0
    · omega
    · omega
  · rw [pathH, orOne]
    split_ifs with h0
    · omega
    · omega

/-- C9 (amended): only the per-layer transform clamps its divisors: its
source bounding-box extents (`path_w = max_x - min_x or 1` and the `y`
counterpart) are always ≥ 1, so `base_scale` never divides by zero.  The
one-shot fit divides by the unclamped source image dimensions and fails
(division by zero) exactly when the source has paths and a zero dimension;
the available rectangle is not clamped anywhere (in the layer transform it
occurs only as a numerator). -/
theorem fit_division_clamps (a : DrawingArea) :
    (∀ pts : List (ℤ × ℤ), 1 ≤ pathW pts ∧ 1 ≤ pathH pts) ∧
    (∀ (ip : ImagePaths) (margin : ℤ) (maintain_aspect use_full_area : Bool),
      scale_paths_to_area ip a margin maintain_aspect use_full_area = none ↔
        ip.paths ≠ [] ∧ (ip.width = 0 ∨ ip.height = 0)) := by
  refine ⟨pathW_pos, ?_⟩
  intro ip margin maintain_aspect use_full_area
  by_cases h1 : ip.paths = []
  · rw [scale_paths_to_area, if_pos h1]
    simp [h1]
  · by_cases h2 : ip.width = 0 ∨ ip.height = 0
    · rw [scale_paths_to_area, if_neg h1, if_pos h2]
      simp [h1, h2]
    · rw [scale_paths_to_area, if_neg h1, if_neg h2]
      simp [h1, h2]

/-- C9 witness: `fit_division_clamps` instantiated at `w2Area`, a concrete
point list and the degenerate source `c9IP`. -/
theorem fit_division_clamps_witness :
    (1 ≤ pathW [((3 : ℤ), (4 : ℤ))] ∧ 1 ≤ pathH [((3 : ℤ), (4 : ℤ))]) ∧
    (scale_paths_to_area c9IP w2Area 20 true false = none ↔
      c9IP.paths ≠ [] ∧ (c9IP.width = 0 ∨ c9IP.height = 0)) :=
  ⟨(fit_division_clamps w2Area).1 [(3, 4)],
   (fit_division_clamps w2Area).2 c9IP 20 true false⟩

/-! ### Line clustering: `detect_drawing_area.cluster_lines` -/

/-- `sorted(lines, key=lambda x: x[0])`: stable sort by position. -/
def sortLines (lines : List (ℤ × ℚ)) : List (ℤ × ℚ) :=
  lines.mergeSort fun p q => decide (p.1 ≤ q.1)

/-- One step of the clustering loop.  The accumulator keeps the cluster
list reversed, each cluster itself reversed, so that the cluster's last
member (which the gap test reads) is at the head. -/
def addLine (min_gap : ℤ) (clusters : List (List (ℤ × ℚ)))
    (line : ℤ × ℚ) : List (List (ℤ × ℚ)) :=
  match clusters with
  | [] => [[line]]
  | c :: rest =>
    match c with
    | [] => [line] :: rest
    | last :: _ =>
        if line.1 - last.1 < min_gap then (line :: c) :: rest
        else [line] :: c :: rest

/-- The clustering loop of `cluster_lines` (clusters in scan order, each
cluster in scan order). -/
def buildClusters (min_gap : ℤ) (lines : List (ℤ × ℚ)) :
    List (List (ℤ × ℚ)) :=
  ((lines.foldl (addLine min_gap) []).map List.reverse).reverse

/-- `(int(np.mean positions), sum lengths)` for one cluster. -/
def reduceCluster (c : List (ℤ × ℚ)) : ℤ × ℚ :=
  (pyTrunc ((c.map fun l => ((l.1 : ℤ) : ℚ)).sum / (c.length : ℚ)),
   (c.map fun l => l.2).sum)

/-- `detect_drawing_area.cluster_lines`. -/
def cluster_lines (lines : List (ℤ × ℚ)) (min_gap : ℤ) : List (ℤ × ℚ) :=
  if lines = [] then []
  else (buildClusters min_gap (sortLines lines)).map reduceCluster

/-- `reduceCluster` is the identity on singleton clusters. -/
theorem reduceCluster_singleton (e : ℤ × ℚ) : reduceCluster [e] = e := by
  rw [reduceCluster]
  simp only [List.map_cons, List.map_nil, List.sum_cons, List.sum_nil,
    add_zero, List.length_cons, List.length_nil, zero_add, Nat.cast_one,
    div_one]
  rw [pyTrunc]
  split_ifs with h
  · rw [Int.floor_intCast]
  · rw [Int.ceil_intCast]

/-- The clustering fold leaves a gap-separated (already sorted) run as
singleton clusters. -/
theorem foldl_addLine_singletons (min_gap : ℤ) :
    ∀ (l : List (ℤ × ℚ)) (x : ℤ × ℚ) (acc : List (List (ℤ × ℚ))),
      List.Chain' (fun p q => min_gap ≤ q.1 - p.1) (x :: l) →
      l.foldl (addLine min_gap) ([x] :: acc) =
        (l.reverse.map fun e => [e]) ++ [x] :: acc := by
  intro l
  induction l with
  | nil => intro x acc _; rfl
  | cons y l ih =>
      intro x acc hc
      have hxy : min_gap ≤ y.1 - x.1 :=
        (List.chain'_cons.mp hc).1
      have hstep : addLine min_gap ([x] :: acc) y = [y] :: [x] :: acc := by
        rw [addLine]
        simp only [if_neg (by omega : ¬ y.1 - x.1 < min_gap)]
      calc (y :: l).foldl (addLine min_gap) ([x] :: acc)
          = l.foldl (addLine min_gap) ([y] :: [x] :: acc) := by
            rw [List.foldl_cons, hstep]
        _ = (l.reverse.map fun e => [e]) ++ [y] :: [x] :: acc :=
            ih y ([x] :: acc) (List.chain'_cons.mp hc).2
        _ = ((y :: l).reverse.map fun e => [e]) ++ [x] :: acc := by
            simp [List.map_append]

/-- C8: on a line set whose positions are pairwise farther apart than the
gap threshold, clustering returns one cluster per input line — the sorted
input itself, with every position and strength unchanged. -/
theorem cluster_lines_idempotent (lines : List (ℤ × ℚ)) (min_gap : ℤ)
    (hsep : lines.Pairwise fun p q => min_gap < |p.1 - q.1|) :
    cluster_lines lines min_gap = sortLines lines := by
  by_cases hemp : lines = []
  · subst hemp
    rw [cluster_lines, if_pos rfl, sortLines, List.mergeSort_nil]
  · rw [cluster_lines, if_neg hemp]
    have hperm : lines.Perm (sortLines lines) :=
      (List.mergeSort_perm lines _).symm
    have hsorted : (sortLines lines).Pairwise fun p q => p.1 ≤ q.1 := by
      have := @List.sorted_mergeSort (ℤ × ℚ)
        (fun p q : ℤ × ℚ => decide (p.1 ≤ q.1))
        (fun a b c hab hbc => by
          simp only [decide_eq_true_eq] at *
          omega)
        (fun a b => by
          simp only [Bool.or_eq_true, decide_eq_true_eq]
          omega)
        lines
      exact this.imp fun h => of_decide_eq_true h
    have hsep' : (sortLines lines).Pairwise fun p q => min_gap < |p.1 - q.1| :=
      hsep.perm hperm fun h => by rw [abs_sub_comm] at h; exact h
    have hchain : List.Chain' (fun p q : ℤ × ℚ => min_gap ≤ q.1 - p.1)
        (sortLines lines) := by
      refine List.Pairwise.chain' ((hsorted.and hsep').imp ?_)
      intro p q ⟨hle, hgap⟩
      rw [abs_of_nonpos (by omega)] at hgap
      omega
    obtain ⟨z, t, hzt⟩ : ∃ z t, sortLines lines = z :: t := by
      cases hs : sortLines lines with
      | nil =>
          rw [hs] at hperm
          exact absurd hperm.eq_nil hemp
      | cons z t => exact ⟨z, t, rfl⟩
    rw [hzt]
    rw [hzt] at hchain
    have hfold : (z :: t).foldl (addLine min_gap) [] =
        (t.reverse.map fun e => [e]) ++ [[z]] := by
      rw [List.foldl_cons]
      exact foldl_addLine_singletons min_gap t z [] hchain
    rw [buildClusters, hfold]
    simp only [List.map_append, List.map_reverse, List.map_map,
      List.reverse_append, List.reverse_reverse, List.reverse_cons,
      List.reverse_nil, List.nil_append, List.map_cons, List.map_nil,
      List.reverse_singleton, List.singleton_append, Function.comp]
    rw [reduceCluster_singleton]
    congr 1
    have hid : (reduceCluster ∘ List.reverse ∘ fun e : ℤ × ℚ => [e]) = id := by
      funext e
      simp [Function.comp, reduceCluster_singleton]
    rw [hid, List.map_id]

/-- C8 witness: two lines 100 apart with threshold 30 cluster to
themselves. -/
theorem cluster_lines_idempotent_witness :
    cluster_lines [((0 : ℤ), (1 : ℚ)), (100, 2)] 30 =
      sortLines [((0 : ℤ), (1 : ℚ)), (100, 2)] :=
  cluster_lines_idempotent [(0, 1), (100, 2)] 30
    (by
      refine List.Pairwise.cons ?_ (List.pairwise_singleton _ _)
      intro q hq
      simp only [List.mem_singleton] at hq
      subst hq
      decide)

/-! ### Slot assignment: `find_boundary_line` and the fallback estimates -/

/-- Membership of a cluster in a slot's fractional band. -/
def inBand (region_start region_end : ℚ) (card_dim : ℤ) (c : ℤ × ℚ) : Prop :=
  region_start * (card_dim : ℚ) ≤ (c.1 : ℚ) ∧
    (c.1 : ℚ) ≤ region_end * (card_dim : ℚ)

/-- `detect_boundary`'s inner `find_boundary_line`: among the clusters
whose position lies in `[region_start·dim, region_end·dim]`, the position
of the one with the greatest strength (`max(candidates, key=...)`: the
first maximal one); `None` when no candidate is in band. -/
def find_boundary_line (clusters : List (ℤ × ℚ))
    (region_start region_end : ℚ) (card_dim : ℤ) : Option ℤ :=
  match clusters.filter (fun c =>
      decide (region_start * (card_dim : ℚ) ≤ (c.1 : ℚ)) &&
      decide ((c.1 : ℚ) ≤ region_end * (card_dim : ℚ))) with
  | [] => none
  | c :: rest =>
      some ((rest.foldl (fun best x => if best.2 < x.2 then x else best) c).1)

/-- `x if x is not None else int(card_dim * fallbackFrac)`: the detected
slot value or the fixed fractional estimate. -/
def assignSlot (clusters : List (ℤ × ℚ)) (region_start region_end : ℚ)
    (card_dim : ℤ) (fallbackFrac : ℚ) : ℤ :=
  (find_boundary_line clusters region_start region_end card_dim).getD
    (pyTrunc (fallbackFrac * (card_dim : ℚ)))

/-- The slot-assignment portion of `detect_boundary`: clusters sorted by
position, eight slots with their bands and fallback fractions, shifted by
the card origin. -/
def detect_boundary_slots (h_clusters v_clusters : List (ℤ × ℚ))
    (card_x card_y card_w card_h : ℤ) : DrawingArea :=
  { top := card_y + assignSlot (sortLines h_clusters) 0 (15/100) card_h (5/100),
    left := card_x + assignSlot (sortLines v_clusters) 0 (15/100) card_w (7/100),
    right := card_x + assignSlot (sortLines v_clusters) (85/100) 1 card_w (94/100),
    bottom := card_y + assignSlot (sortLines h_clusters) (80/100) 1 card_h (92/100),
    cutout_left := card_x + assignSlot (sortLines v_clusters) (50/100) (75/100) card_w (60/100),
    cutout_top := card_y + assignSlot (sortLines h_clusters) (45/100) (70/100) card_h (58/100),
    top_excl_right := card_x + assignSlot (sortLines v_clusters) (12/100) (30/100) card_w (18/100),
    top_excl_bottom := card_y + assignSlot (sortLines h_clusters) (10/100) (25/100) card_h (18/100) }

/-- The `max(..., key=strength)` fold returns a member of the candidate
list whose strength bounds every candidate's strength. -/
theorem foldl_max_strength (c : ℤ × ℚ) (rest : List (ℤ × ℚ)) :
    (rest.foldl (fun best x => if best.2 < x.2 then x else best) c) ∈
        c :: rest ∧
    ∀ y ∈ c :: rest,
      y.2 ≤ (rest.foldl (fun best x => if best.2 < x.2 then x else best) c).2 := by
  induction rest generalizing c with
  | nil =>
      refine ⟨List.mem_singleton_self c, ?_⟩
      intro y hy
      rw [List.mem_singleton] at hy
      subst hy
      exact le_refl _
  | cons x rest ih =>
      obtain ⟨ihmem, ihbound⟩ := ih (if c.2 < x.2 then x else c)
      constructor
      · rw [List.foldl_cons]
        rcases List.mem_cons.mp ihmem with h | h
        · rw [h]
          split_ifs
          · exact List.mem_cons_of_mem c (List.mem_cons_self x rest)
          · exact List.mem_cons_self c (x :: rest)
        · exact List.mem_cons_of_mem c (List.mem_cons_of_mem x h)
      · intro y hy
        rw [List.foldl_cons]
        have hhead : (if c.2 < x.2 then x else c).2 ≤
            (rest.foldl (fun best x => if best.2 < x.2 then x else best)
              (if c.2 < x.2 then x else c)).2 :=
          ihbound _ (List.mem_cons_self _ rest)
        rcases List.mem_cons.mp hy with h | h
        · subst h
          refine le_trans ?_ hhead
          split_ifs with hc
          · exact le_of_lt hc
          · exact le_refl _
        · rcases List.mem_cons.mp h with h2 | h2
          · subst h2
            refine le_trans ?_ hhead
            split_ifs with hc
            · exact le_refl _
            · exact le_of_not_lt hc
          · exact ihbound y (List.mem_cons_of_mem _ h2)

/-- C6: slot assignment selects, among the clusters in the slot's
fractional band, one of greatest summed strength; it returns `none` exactly
when no cluster is in band; the fallback substitutes the fixed fractional
estimate `int(frac · dim)`; and the classifier is total — it always builds
all eight coordinates from these slot values shifted by the card origin. -/
theorem find_boundary_line_spec (clusters : List (ℤ × ℚ))
    (region_start region_end : ℚ) (card_dim : ℤ) :
    (∀ p, find_boundary_line clusters region_start region_end card_dim =
        some p →
      ∃ s, (p, s) ∈ clusters ∧ inBand region_start region_end card_dim (p, s) ∧
        ∀ c ∈ clusters, inBand region_start region_end card_dim c → c.2 ≤ s) ∧
    (find_boundary_line clusters region_start region_end card_dim = none ↔
      ∀ c ∈ clusters, ¬ inBand region_start region_end card_dim c) ∧
    (∀ fb : ℚ,
      (find_boundary_line clusters region_start region_end card_dim = none →
        assignSlot clusters region_start region_end card_dim fb =
          pyTrunc (fb * (card_dim : ℚ))) ∧
      (∀ p, find_boundary_line clusters region_start region_end card_dim =
          some p →
        assignSlot clusters region_start region_end card_dim fb = p)) ∧
    (∀ (v_clusters : List (ℤ × ℚ)) (card_x card_y card_w card_h : ℤ),
      (detect_boundary_slots clusters v_clusters card_x card_y card_w card_h).top =
        card_y + assignSlot (sortLines clusters) 0 (15/100) card_h (5/100) ∧
      (detect_boundary_slots clusters v_clusters card_x card_y card_w card_h).left =
        card_x + assignSlot (sortLines v_clusters) 0 (15/100) card_w (7/100) ∧
      (detect_boundary_slots clusters v_clusters card_x card_y card_w card_h).right =
        card_x + assignSlot (sortLines v_clusters) (85/100) 1 card_w (94/100) ∧
      (detect_boundary_slots clusters v_clusters card_x card_y card_w card_h).bottom =
        card_y + assignSlot (sortLines clusters) (80/100) 1 card_h (92/100) ∧
      (detect_boundary_slots clusters v_clusters card_x card_y card_w card_h).cutout_left =
        card_x + assignSlot (sortLines v_clusters) (50/100) (75/100) card_w (60/100) ∧
      (detect_boundary_slots clusters v_clusters card_x card_y card_w card_h).cutout_top =
        card_y + assignSlot (sortLines clusters) (45/100) (70/100) card_h (58/100) ∧
      (detect_boundary_slots clusters v_clusters card_x card_y card_w card_h).top_excl_right =
        card_x + assignSlot (sortLines v_clusters) (12/100) (30/100) card_w (18/100) ∧
      (detect_boundary_slots clusters v_clusters card_x card_y card_w card_h).top_excl_bottom =
        card_y + assignSlot (sortLines clusters) (10/100) (25/100) card_h (18/100)) := by
  have hband : ∀ c : ℤ × ℚ,
      ((decide (region_start * (card_dim : ℚ) ≤ (c.1 : ℚ)) &&
        decide ((c.1 : ℚ) ≤ region_end * (card_dim : ℚ))) = true) ↔
      inBand region_start region_end card_dim c := by
    intro c
    rw [Bool.and_eq_true, decide_eq_true_eq, decide_eq_true_eq, inBand]
  refine ⟨?_, ?_, ?_, ?_⟩
  · intro p hp
    rw [find_boundary_line] at hp
    cases hf : clusters.filter (fun c =>
        decide (region_start * (card_dim : ℚ) ≤ (c.1 : ℚ)) &&
        decide ((c.1 : ℚ) ≤ region_end * (card_dim : ℚ))) with
    | nil => rw [hf] at hp; cases hp
    | cons c rest =>
        rw [hf] at hp
        obtain ⟨hmem, hbound⟩ := foldl_max_strength c rest
        rw [← hf] at hmem
        obtain ⟨hmemc, hpred⟩ := List.mem_filter.mp hmem
        injection hp with hp
        refine ⟨(rest.foldl (fun best x => if best.2 < x.2 then x else best) c).2,
          ?_, ?_, ?_⟩
        · rw [← hp]
          exact hmemc
        · rw [← hp]
          exact (hband _).mp hpred
        · intro d hd hdband
          have hdf : d ∈ c :: rest := by
            rw [← hf]
            exact List.mem_filter.mpr ⟨hd, (hband d).mpr hdband⟩
          exact hbound d hdf
  · rw [find_boundary_line]
    cases hf : clusters.filter (fun c =>
        decide (region_start * (card_dim : ℚ) ≤ (c.1 : ℚ)) &&
        decide ((c.1 : ℚ) ≤ region_end * (card_dim : ℚ))) with
    | nil =>
        simp only [true_iff]
        intro c hc hcband
        have : c ∈ ([] : List (ℤ × ℚ)) := by
          rw [← hf]
          exact List.mem_filter.mpr ⟨hc, (hband c).mpr hcband⟩
        cases this
    | cons c rest =>
        constructor
        · intro h; cases h
        · intro hall
          have hcf : c ∈ clusters.filter (fun c =>
              decide (region_start * (card_dim : ℚ) ≤ (c.1 : ℚ)) &&
              decide ((c.1 : ℚ) ≤ region_end * (card_dim : ℚ))) := by
            rw [hf]
            exact List.mem_cons_self c rest
          obtain ⟨hc, hpred⟩ := List.mem_filter.mp hcf
          exact absurd ((hband c).mp hpred) (hall c hc)
  · intro fb
    constructor
    · intro h
      rw [assignSlot, h, Option.getD_none]
    · intro p h
      rw [assignSlot, h, Option.getD_some]
  · intro v_clusters card_x card_y card_w card_h
    exact ⟨rfl, rfl, rfl, rfl, rfl, rfl, rfl, rfl⟩

/-- C6 witness: on the clusters `[(5, 3), (7, 9)]` with band `[0, 10]`,
`find_boundary_line` returns position 7, whose strength 9 dominates. -/
theorem find_boundary_line_spec_witness :
    ∃ s, ((7 : ℤ), s) ∈ [((5 : ℤ), (3 : ℚ)), (7, 9)] ∧
      inBand 0 1 10 (7, s) ∧
      ∀ c ∈ [((5 : ℤ), (3 : ℚ)), (7, 9)], inBand 0 1 10 c → c.2 ≤ s :=
  (find_boundary_line_spec [(5, 3), (7, 9)] 0 1 10).1 7
    (by norm_num [find_boundary_line, List.filter])

/-! ### Erase and undo: `eraseAt` / `undoErase` of the web UI -/

/-- The editing state touched by an erase gesture: the active layer's
working path set (`layer.paths`) and the bounded undo stack
(`pathsHistory`, most recent snapshot last). -/
structure EraseState where
  paths : List (List (ℤ × ℤ))
  history : List (List (List (ℤ × ℤ)))
deriving DecidableEq

/-- The cursor position, eraser radius and ambient UI state read by one
`eraseAt(canvasX, canvasY)` call.  `cosr`/`sinr` stand for
`Math.cos`/`Math.sin` of the rotation in radians, supplied as exact
rationals; they are only consumed when the rotation is nonzero. -/
structure EraseArgs where
  canvasX : ℚ
  canvasY : ℚ
  eraserSize : ℚ
  area : DrawingArea
  canvasW : ℚ
  canvasH : ℚ
  imageOffsetX : ℚ
  imageOffsetY : ℚ
  scaleX : ℚ
  scaleY : ℚ
  rotDeg : ℚ
  cosr : ℚ
  sinr : ℚ
  flipH : Bool
  flipV : Bool

/-- `previewScale = min(canvas.width / (w+100), canvas.height / (h+100)) * 0.9`. -/
def previewScale (ar : EraseArgs) : ℚ :=
  min (ar.canvasW / ((ar.area.right - ar.area.left + 100 : ℤ) : ℚ))
      (ar.canvasH / ((ar.area.bottom - ar.area.top + 100 : ℤ) : ℚ)) * (9 / 10)

/-- `offsetX = (canvas.width - w * previewScale) / 2`. -/
def previewOffX (ar : EraseArgs) : ℚ :=
  (ar.canvasW - ((ar.area.right - ar.area.left : ℤ) : ℚ) * previewScale ar) / 2

/-- `offsetY = (canvas.height - h * previewScale) / 2`. -/
def previewOffY (ar : EraseArgs) : ℚ :=
  (ar.canvasH - ((ar.area.bottom - ar.area.top : ℤ) : ℚ) * previewScale ar) / 2

/-- `availLeft = max(area.left, area.top_excl_right)` (erase variant). -/
def eAvailLeft (a : DrawingArea) : ℤ := max a.left a.top_excl_right

/-- `availTop = max(area.top, area.top_excl_bottom)` (erase variant). -/
def eAvailTop (a : DrawingArea) : ℤ := max a.top a.top_excl_bottom

/-- `availW = cutout_left - availLeft - 40`. -/
def eAvailW (a : DrawingArea) : ℤ := a.cutout_left - eAvailLeft a - 40

/-- `availH = bottom - availTop - 40`. -/
def eAvailH (a : DrawingArea) : ℤ := a.bottom - eAvailTop a - 40

/-- `areaCenterX = availLeft + 20 + availW / 2`. -/
def eCenterX (a : DrawingArea) : ℚ := (eAvailLeft a : ℚ) + 20 + (eAvailW a : ℚ) / 2

/-- `areaCenterY = availTop + 20 + availH / 2`. -/
def eCenterY (a : DrawingArea) : ℚ := (eAvailTop a : ℚ) + 20 + (eAvailH a : ℚ) / 2

/-- `baseScale = min(availW / pathW, availH / pathH)` (erase variant). -/
def eBaseScale (a : DrawingArea) (pts : List (ℤ × ℤ)) : ℚ :=
  min ((eAvailW a : ℚ) / (pathW pts : ℚ)) ((eAvailH a : ℚ) / (pathH pts : ℚ))

/-- The `transformToCanvas` closure of `eraseAt`: the same
centroid/flip/rotate/scale/centre composition as the preview, then the
card-to-canvas map `tx`/`ty` plus the free image offset.  `pts` is the
flattened current path set of the active layer. -/
def transformToCanvas (ar : EraseArgs) (pts : List (ℤ × ℤ))
    (p : ℤ × ℤ) : ℚ × ℚ :=
  let x0 : ℚ := (p.1 : ℚ) - pathCX pts
  let y0 : ℚ := (p.2 : ℚ) - pathCY pts
  let x1 := if ar.flipH then -x0 else x0
  let y1 := if ar.flipV then -y0 else y0
  let x2 := if ar.rotDeg ≠ 0 then x1 * ar.cosr - y1 * ar.sinr else x1
  let y2 := if ar.rotDeg ≠ 0 then x1 * ar.sinr + y1 * ar.cosr else y1
  let x3 := x2 * (eBaseScale ar.area pts * ar.scaleX) + eCenterX ar.area
  let y3 := y2 * (eBaseScale ar.area pts * ar.scaleY) + eCenterY ar.area
  (previewOffX ar + (x3 - (ar.area.left : ℚ)) * previewScale ar +
     ar.imageOffsetX,
   previewOffY ar + (y3 - (ar.area.top : ℚ)) * previewScale ar +
     ar.imageOffsetY)

/-- The point-survival test of `eraseAt`: the source keeps a point iff
`sqrt(dx² + dy²) > eraseRadius`; over ℚ this is stated on squares, which is
equivalent for every sign of the radius since the distance is the
nonnegative square root. -/
def eraseKeep (ar : EraseArgs) (pts : List (ℤ × ℤ)) (p : ℤ × ℤ) : Bool :=
  let c := transformToCanvas ar pts p
  if ar.eraserSize < 0 then true
  else decide (ar.eraserSize * ar.eraserSize <
    (c.1 - ar.canvasX) * (c.1 - ar.canvasX) +
    (c.2 - ar.canvasY) * (c.2 - ar.canvasY))

/-- `eraseAt`: a no-op without paths; otherwise push the current path set
onto the undo stack when the stack is empty or its top differs (dropping
the oldest entry past capacity 20), then remove the points within the
eraser radius and discard paths left with fewer than two points. -/
def eraseAt (st : EraseState) (ar : EraseArgs) : EraseState :=
  if st.paths = [] then st
  else
    { paths := (st.paths.map fun path =>
        path.filter fun p => eraseKeep ar st.paths.flatten p).filter
        fun path => 2 ≤ path.length,
      history :=
        if st.history = [] ∨ st.history.getLast? ≠ some st.paths then
          (if 20 < (st.history ++ [st.paths]).length then
            (st.history ++ [st.paths]).drop 1
          else st.history ++ [st.paths])
        else st.history }

/-- `undoErase`: when the stack is nonempty, pop its most recent snapshot
into the active layer's path set. -/
def undoErase (st : EraseState) : EraseState :=
  if h : st.history = [] then st
  else { paths := st.history.getLast h, history := st.history.dropLast }

/-- A sequence of erase gestures applied in order. -/
def applyErases (st : EraseState) (l : List EraseArgs) : EraseState :=
  l.foldl eraseAt st

/-- A concrete erase gesture: cursor far away from every point with a
zero radius, so no point is removed. -/
def c5Args : EraseArgs :=
  { canvasX := 1000, canvasY := 1000, eraserSize := 0, area := w2Area,
    canvasW := 300, canvasH := 300, imageOffsetX := 0, imageOffsetY := 0,
    scaleX := 1, scaleY := 1, rotDeg := 0, cosr := 1, sinr := 0,
    flipH := false, flipV := false }

/-- The active layer's path set before the scenario's erases. -/
def c5P : List (List (ℤ × ℤ)) := [[(0, 0), (10, 10)]]

/-- A distinct older snapshot sitting on the undo stack. -/
def c5Q : List (List (ℤ × ℤ)) := [[(0, 0), (1, 1)]]

/-- Undo is the identity on an empty stack, and stays so under iteration. -/
theorem undo_iterate_empty (p : List (List (ℤ × ℤ))) (k : ℕ) :
    undoErase^[k] ⟨p, []⟩ = ⟨p, []⟩ := by
  induction k with
  | zero => rfl
  | succ k ih =>
      rw [Function.iterate_succ_apply, undoErase, dif_pos rfl]
      exact ih

/-- Enough undos pop the stack down to its first (oldest) snapshot. -/
theorem undo_pops (P0 : List (List (ℤ × ℤ))) :
    ∀ (k : ℕ) (H : List (List (List (ℤ × ℤ)))) (P : List (List (ℤ × ℤ))),
      H.head? = some P0 → H.length ≤ k →
      (undoErase^[k] ⟨P, H⟩).paths = P0 := by
  intro k
  induction k with
  | zero =>
      intro H P hhead hlen
      rw [List.length_eq_zero.mp (Nat.le_zero.mp hlen)] at hhead
      cases hhead
  | succ k ih =>
      intro H P hhead hlen
      cases H with
      | nil => cases hhead
      | cons h1 t =>
          have h1P0 : h1 = P0 := by
            simpa using hhead
          rw [h1P0]
          cases ht : t with
          | nil =>
              subst ht
              rw [Function.iterate_succ_apply, undoErase,
                dif_neg (List.cons_ne_nil P0 [])]
              simp only [List.getLast_singleton, List.dropLast_single]
              rw [undo_iterate_empty]
          | cons t1 t2 =>
              subst ht
              rw [Function.iterate_succ_apply, undoErase,
                dif_neg (List.cons_ne_nil P0 (t1 :: t2))]
              have hdl : (P0 :: t1 :: t2).dropLast =
                  P0 :: (t1 :: t2).dropLast :=
                List.dropLast_cons_of_ne_nil (List.cons_ne_nil t1 t2)
              rw [hdl]
              refine ih (P0 :: (t1 :: t2).dropLast) _ rfl ?_
              simp only [List.length_dropLast, List.length_cons] at hlen ⊢
              omega

/-- Starting from a given stack shape, a run of erase gestures keeps the
oldest snapshot: either the stack stays empty with the paths untouched, or
its first entry is the original path set; and the stack grows by at most
one entry per gesture (so within capacity nothing is ever dropped). -/
theorem applyErases_inv (P0 : List (List (ℤ × ℤ))) :
    ∀ (l : List EraseArgs) (st : EraseState),
      ((st.history = [] ∧ st.paths = P0) ∨ st.history.head? = some P0) →
      st.history.length + l.length ≤ 20 →
      (((applyErases st l).history = [] ∧ (applyErases st l).paths = P0) ∨
        (applyErases st l).history.head? = some P0) ∧
      (applyErases st l).history.length ≤ st.history.length + l.length := by
  intro l
  induction l with
  | nil =>
      intro st hinv _
      exact ⟨hinv, Nat.le_add_right _ _⟩
  | cons a l ih =>
      intro st hinv hcap
      have hstep :
          (((eraseAt st a).history = [] ∧ (eraseAt st a).paths = P0) ∨
            (eraseAt st a).history.head? = some P0) ∧
          (eraseAt st a).history.length ≤ st.history.length + 1 := by
        by_cases hp : st.paths = []
        · rw [eraseAt, if_pos hp]
          rcases hinv with h | h
          · exact ⟨Or.inl h, Nat.le_succ_of_le le_rfl⟩
          · exact ⟨Or.inr h, Nat.le_succ_of_le le_rfl⟩
        · rw [eraseAt, if_neg hp]
          by_cases hpush : st.history = [] ∨
              st.history.getLast? ≠ some st.paths
          · have hlen1 : ¬ 20 < (st.history ++ [st.paths]).length := by
              simp only [List.length_append, List.length_cons,
                List.length_nil]
              simp only [List.length_cons] at hcap
              omega
            simp only [if_pos hpush, if_neg hlen1]
            refine ⟨Or.inr ?_, ?_⟩
            · cases hh : st.history with
              | nil =>
                  rcases hinv with ⟨_, hpp⟩ | hcontra
                  · simp [hpp]
                  · rw [hh] at hcontra
                    cases hcontra
              | cons x xs =>
                  rcases hinv with ⟨habs, _⟩ | hhead
                  · exact absurd (hh.symm.trans habs) (List.cons_ne_nil x xs)
                  · rw [hh] at hhead
                    simpa using hhead
            · simp only [List.length_append, List.length_cons,
                List.length_nil]
              omega
          · simp only [if_neg hpush]
            push_neg at hpush
            rcases hinv with ⟨habs, _⟩ | hhead
            · exact absurd habs hpush.1
            · exact ⟨Or.inr hhead, Nat.le_succ_of_le le_rfl⟩
      have hcap' : (eraseAt st a).history.length + l.length ≤ 20 := by
        have := hstep.2
        simp only [List.length_cons] at hcap
        omega
      obtain ⟨hinv', hlen'⟩ := ih (eraseAt st a) hstep.1 hcap'
      refine ⟨hinv', ?_⟩
      calc (applyErases (eraseAt st a) l).history.length
          ≤ (eraseAt st a).history.length + l.length := hlen'
        _ ≤ st.history.length + 1 + l.length :=
            Nat.add_le_add_right hstep.2 _
        _ = st.history.length + (a :: l).length := by
            simp [List.length_cons]; omega

/-- C5 (amended): starting with an empty undo stack, k erase gestures
(k ≤ 20, arbitrary cursors/radii/transforms) followed by k undos restore
the active layer's path set exactly.  (With a nonempty starting stack the
claim fails — see the counterexample — because a no-op erase pushes
nothing, letting a later undo pop past the pre-erase snapshot.) -/
theorem erase_undo_roundtrip (st : EraseState) (l : List EraseArgs)
    (h0 : st.history = []) (hk : l.length ≤ 20) :
    (undoErase^[l.length] (applyErases st l)).paths = st.paths := by
  obtain ⟨hinv, hlen⟩ :=
    applyErases_inv st.paths l st (Or.inl ⟨h0, rfl⟩)
      (by rw [h0]; simpa using hk)
  rw [h0] at hlen
  simp only [List.length_nil, Nat.zero_add] at hlen
  rcases hinv with ⟨hh, hp⟩ | hh
  · have : applyErases st l = ⟨(applyErases st l).paths, []⟩ := by
      cases happ : applyErases st l
      simp only [happ] at hh
      simp [hh]
    rw [this, undo_iterate_empty]
    simpa using hp
  · exact undo_pops st.paths l.length (applyErases st l).history
      (applyErases st l).paths hh hlen

/-- C5 witness: `erase_undo_roundtrip` on a concrete state (empty stack)
and two concrete erase gestures. -/
theorem erase_undo_roundtrip_witness :
    (undoErase^[2] (applyErases ⟨[], []⟩ [c5Args, c5Args])).paths = [] :=
  erase_undo_roundtrip ⟨[], []⟩ [c5Args, c5Args] rfl (by decide)

/-- C5 counterexample: with a nonempty undo stack left over from an
earlier gesture (`[c5Q]`, top ≠ current paths `c5P`), two no-op erases
(cursor far away, radius 0: the first pushes `c5P`, the second pushes
nothing since the top already equals the unchanged paths) followed by two
undos leave the layer at the older snapshot `c5Q`, not at its pre-erase
state `c5P`. -/
theorem erase_undo_nonempty_stack_cex :
    (undoErase (undoErase
      (eraseAt (eraseAt ⟨c5P, [c5Q]⟩ c5Args) c5Args))).paths = c5Q ∧
    c5Q ≠ c5P := by
  have hfilter : (c5P.map fun path =>
      path.filter fun p => eraseKeep c5Args c5P.flatten p).filter
      (fun path => 2 ≤ path.length) = c5P := by
    norm_num [c5P, c5Args, w2Area, eraseKeep, transformToCanvas,
      previewScale, previewOffX, previewOffY, eAvailLeft, eAvailTop,
      eAvailW, eAvailH, eCenterX, eCenterY, eBaseScale, pathCX, pathCY,
      pathW, pathH, ptsMinX, ptsMinY, ptsMaxX, ptsMaxY, orOne, min_def,
      List.filter, Prod.mk.injEq]
  have e1 : eraseAt ⟨c5P, [c5Q]⟩ c5Args = ⟨c5P, [c5Q, c5P]⟩ := by
    rw [eraseAt, if_neg (by decide)]
    congr 1
  have e2 : eraseAt ⟨c5P, [c5Q, c5P]⟩ c5Args = ⟨c5P, [c5Q, c5P]⟩ := by
    rw [eraseAt, if_neg (by decide)]
    congr 1
  rw [e1, e2]
  exact ⟨by decide, by decide⟩
